import Mathlib

/-!
Shallow embedding of the chicago-transit-board repository's
arrival-aggregation and bitmap-rendering pipeline (src/app.py, src/cta.py,
src/dashboard.py, src/led_driver.py, src/metra.py), together with theorems
settling the specification claims about it.

Python strings are modelled as `List Char`; Python ints as `ℤ`; Python
floats arising in time arithmetic as `ℚ` (an idealized, exact model of the
float computations, standard for these claims, none of which depends on
float rounding error); `datetime` instants as integer epoch seconds.
Fallible steps (network fetch, JSON decode, `int()` parsing, list
indexing) are modelled with `Option`/`Except`.
-/

/-- Python strings are immutable character sequences; modelled as `List Char`. -/
abbrev PyStr := List Char

/-- Floor of a rational, computed directly on the normalized fraction
(`Rat` keeps `num`/`den` coprime with positive denominator). -/
def ratFloor (q : ℚ) : ℤ :=
  Int.fdiv q.num (q.den : ℤ)

/-- Model of Python 3 `round()` on an exact rational: round to nearest,
ties to even (banker's rounding). -/
def pyRound (q : ℚ) : ℤ :=
  let f := ratFloor q
  let r := q - (f : ℚ)
  if r < 1 / 2 then f
  else if 1 / 2 < r then f + 1
  else if f % 2 = 0 then f else f + 1

/-- Model of Python 3 `round(d / 60)` for an integer number of seconds `d`,
computed exactly on integers: `Int.fdiv d 60` is the floor of `d / 60` and
`Int.emod d 60` its remainder in `[0, 60)`, so the fractional part of
`d / 60` is below, above, or exactly one half according as the remainder
compares to 30; ties go to the even integer (banker's rounding). -/
def pyRound60 (d : ℤ) : ℤ :=
  let f := Int.fdiv d 60
  let r := Int.emod d 60
  if r < 30 then f
  else if 30 < r then f + 1
  else if f % 2 = 0 then f else f + 1

/-- Minutes-until-arrival as every fetcher computes it:
`round((arrival_time - now).total_seconds() / 60)`, with both instants in
integer epoch seconds. -/
def minutesAway (ts now : ℤ) : ℤ :=
  pyRound60 (ts - now)

/-- Decimal digit character for a value below ten (as Python's `str` uses). -/
def digitCh (n : ℕ) : Char :=
  if n = 0 then '0' else if n = 1 then '1' else if n = 2 then '2'
  else if n = 3 then '3' else if n = 4 then '4' else if n = 5 then '5'
  else if n = 6 then '6' else if n = 7 then '7' else if n = 8 then '8' else '9'

/-- Decimal digits of a natural number, most significant first; the fuel
argument (always enough when called from `natDigits`) keeps the recursion
structural. -/
def natDigitsAux : ℕ → ℕ → List Char
  | 0, _ => []
  | fuel + 1, n =>
    if n < 10 then [digitCh n]
    else natDigitsAux fuel (n / 10) ++ [digitCh (n % 10)]

/-- Decimal digit string of a natural number. -/
def natDigits (n : ℕ) : List Char :=
  natDigitsAux (n + 1) n

/-- Model of Python `str()` on an int: optional minus sign, then decimal digits. -/
def pyStr (m : ℤ) : PyStr :=
  if m < 0 then '-' :: natDigits (-m).toNat else natDigits m.toNat

/-- Model of Python `int()` applied to a string: an optional sign followed by
one or more decimal digits; anything else raises (here: `none`). -/
def parsePyInt (s : PyStr) : Option ℤ :=
  let digitsVal : List Char → Option ℕ := fun ds =>
    if ds = [] then none
    else if ds.all (fun c => c.isDigit) then
      some (ds.foldl (fun acc c => acc * 10 + (c.toNat - 48)) 0)
    else none
  match s with
  | '-' :: rest => (digitsVal rest).map (fun n => -(n : ℤ))
  | '+' :: rest => (digitsVal rest).map (fun n => (n : ℤ))
  | _ => (digitsVal s).map (fun n => (n : ℤ))

/-- Model of Python `str.split("_")`: split on every underscore, keeping
empty segments (so the result is always nonempty). -/
def splitU : List Char → List (List Char)
  | [] => [[]]
  | c :: rest =>
    if c = '_' then [] :: splitU rest
    else
      match splitU rest with
      | [] => [[c]]
      | g :: gs => (c :: g) :: gs

/-- Model of Python `str.replace("ME", "")`: remove every (leftmost-first,
non-overlapping) occurrence of the two-character pattern `ME`. -/
def removeME : List Char → List Char
  | 'M' :: 'E' :: rest => removeME rest
  | c :: rest => c :: removeME rest
  | [] => []

/-- Digit characters are never a minus sign. -/
theorem digitCh_ne_dash (n : ℕ) : digitCh n ≠ '-' := by
  unfold digitCh
  repeat' split
  all_goals decide

/-- The digit string of a natural number contains no minus sign. -/
theorem dash_not_mem_natDigitsAux (fuel n : ℕ) : '-' ∉ natDigitsAux fuel n := by
  induction fuel generalizing n with
  | zero => simp [natDigitsAux]
  | succ fuel ih =>
    unfold natDigitsAux
    split
    · intro h
      exact digitCh_ne_dash n (List.mem_singleton.mp h).symm
    · intro h
      rcases List.mem_append.mp h with h1 | h2
      · exact ih (n / 10) h1
      · exact digitCh_ne_dash (n % 10) (List.mem_singleton.mp h2).symm

/-- One step of a stable insertion sort keyed by an integer: the new element
goes in front of the first element whose key is not smaller, hence after all
earlier-fetched elements with an equal key. -/
def insertByKey {α : Type} (key : α → ℤ) (a : α) : List α → List α
  | [] => [a]
  | b :: rest => if key b < key a then b :: insertByKey key a rest else a :: b :: rest

/-- Model of Python `sorted(xs, key=...)`: Python's sort is specified to be
stable, so any stable sort is extensionally equal to it; a stable insertion
sort is used here. -/
def sortByKey {α : Type} (key : α → ℤ) : List α → List α
  | [] => []
  | a :: rest => insertByKey key a (sortByKey key rest)

theorem mem_insertByKey {α : Type} (key : α → ℤ) (a x : α) (l : List α) :
    x ∈ insertByKey key a l ↔ x = a ∨ x ∈ l := by
  induction l with
  | nil => simp [insertByKey]
  | cons b rest ih =>
    unfold insertByKey
    split
    · rw [List.mem_cons, ih, List.mem_cons]
      tauto
    · simp only [List.mem_cons]

theorem pairwise_insertByKey {α : Type} (key : α → ℤ) (a : α) (l : List α)
    (h : l.Pairwise (fun x y => key x ≤ key y)) :
    (insertByKey key a l).Pairwise (fun x y => key x ≤ key y) := by
  induction l with
  | nil => simp [insertByKey]
  | cons b rest ih =>
    rcases List.pairwise_cons.mp h with ⟨hb, hrest⟩
    unfold insertByKey
    split
    · refine List.pairwise_cons.mpr ⟨?_, ih hrest⟩
      intro x hx
      rcases (mem_insertByKey key a x rest).mp hx with hxa | hxr
      · subst hxa
        omega
      · exact hb x hxr
    · refine List.pairwise_cons.mpr ⟨?_, h⟩
      intro x hx
      rcases List.mem_cons.mp hx with hxb | hxr
      · subst hxb
        omega
      · have := hb x hxr
        omega

theorem sortByKey_pairwise {α : Type} (key : α → ℤ) (l : List α) :
    (sortByKey key l).Pairwise (fun x y => key x ≤ key y) := by
  induction l with
  | nil => simp [sortByKey]
  | cons a rest ih => exact pairwise_insertByKey key a _ ih

theorem mem_sortByKey {α : Type} (key : α → ℤ) (x : α) (l : List α) :
    x ∈ sortByKey key l ↔ x ∈ l := by
  induction l with
  | nil => simp [sortByKey]
  | cons a rest ih =>
    unfold sortByKey
    rw [mem_insertByKey, ih]
    simp

theorem filter_insertByKey {α : Type} (key : α → ℤ) (a : α) (l : List α) (m : ℤ) :
    (insertByKey key a l).filter (fun x => key x == m) =
      if key a = m then a :: l.filter (fun x => key x == m)
      else l.filter (fun x => key x == m) := by
  induction l with
  | nil =>
    by_cases hm : key a = m <;> simp [insertByKey, List.filter_cons, beq_iff_eq, hm]
  | cons b rest ih =>
    unfold insertByKey
    split
    · next hlt =>
      by_cases hm : key a = m
      · have hbm : ¬ (key b = m) := by omega
        simp [List.filter_cons, beq_iff_eq, hm, hbm, ih]
      · by_cases hbm : key b = m <;> simp [List.filter_cons, beq_iff_eq, hm, hbm, ih]
    · by_cases hm : key a = m <;> by_cases hbm : key b = m <;>
        simp [List.filter_cons, beq_iff_eq, hm, hbm]

/-- Stability of the sort: the subsequence of elements having any fixed key
value is exactly the same, in the same order, as in the input; equal-key
elements therefore keep their original relative order. -/
theorem sortByKey_stable {α : Type} (key : α → ℤ) (l : List α) (m : ℤ) :
    (sortByKey key l).filter (fun x => key x == m) =
      l.filter (fun x => key x == m) := by
  induction l with
  | nil => simp [sortByKey]
  | cons a rest ih =>
    unfold sortByKey
    rw [filter_insertByKey]
    by_cases hm : key a = m <;> simp [List.filter_cons, beq_iff_eq, hm, ih]

/-- One iteration of the grouping loop in `get_cta_arrivals` (src/app.py
lines 54-58): `if route not in cta_lines: cta_lines[route] = []` followed by
`cta_lines[route].append(arrival)`, on an insertion-ordered association list
(the model of a Python dict). -/
def addToGroup {α : Type} (keyOf : α → PyStr) :
    List (PyStr × List α) → α → List (PyStr × List α)
  | [], a => [(keyOf a, [a])]
  | (r, g) :: rest, a =>
    if r = keyOf a then (r, g ++ [a]) :: rest
    else (r, g) :: addToGroup keyOf rest a

/-- The whole grouping loop: fold the arrivals into an insertion-ordered
dict keyed by route. -/
def groupBy {α : Type} (keyOf : α → PyStr) (l : List α) : List (PyStr × List α) :=
  l.foldl (addToGroup keyOf) []

/-- Dict lookup on the association-list model. -/
def findGroup {α : Type} : List (PyStr × List α) → PyStr → Option (List α)
  | [], _ => none
  | (r, g) :: rest, k => if r = k then some g else findGroup rest k

theorem findGroup_addToGroup {α : Type} (keyOf : α → PyStr)
    (groups : List (PyStr × List α)) (a : α) (k : PyStr) :
    findGroup (addToGroup keyOf groups a) k =
      if k = keyOf a then some ((findGroup groups k).getD [] ++ [a])
      else findGroup groups k := by
  induction groups with
  | nil =>
    by_cases hk : k = keyOf a
    · simp [addToGroup, findGroup, hk]
    · have hk2 : ¬ (keyOf a = k) := fun h => hk h.symm
      simp [addToGroup, findGroup, hk, hk2]
  | cons p rest ih =>
    obtain ⟨r, g⟩ := p
    unfold addToGroup
    by_cases hra : r = keyOf a
    · by_cases hk : k = keyOf a
      · have hrk : r = k := hra.trans hk.symm
        simp [findGroup, hra, hk, hrk]
      · have hrk : ¬ (r = k) := fun h => hk (h.symm.trans hra)
        have hak : ¬ (keyOf a = k) := fun h => hk h.symm
        simp [findGroup, hra, hk, hrk, hak]
    · by_cases hrk : r = k
      · have hk : ¬ (k = keyOf a) := fun h => hra (hrk.trans h)
        simp [findGroup, hra, hrk, hk]
      · simp [findGroup, hra, hrk, ih]

theorem findGroup_foldl_some {α : Type} (keyOf : α → PyStr) (l : List α)
    (groups : List (PyStr × List α)) (k : PyStr) (g : List α)
    (h : findGroup groups k = some g) :
    findGroup (l.foldl (addToGroup keyOf) groups) k =
      some (g ++ l.filter (fun x => keyOf x == k)) := by
  induction l generalizing groups g with
  | nil => simp [h]
  | cons a rest ih =>
    rw [List.foldl_cons]
    by_cases hk : k = keyOf a
    · have h2 : findGroup (addToGroup keyOf groups a) k = some (g ++ [a]) := by
        rw [findGroup_addToGroup, if_pos hk, h]
        rfl
      rw [ih _ _ h2]
      have hpa : (keyOf a == k) = true := by
        simp [hk]
      simp [List.filter_cons, hpa]
    · have h2 : findGroup (addToGroup keyOf groups a) k = some g := by
        rw [findGroup_addToGroup, if_neg hk]
        exact h
      rw [ih _ _ h2]
      have hpa : (keyOf a == k) = false := by
        simp
        exact fun h3 => hk h3.symm
      simp [List.filter_cons, hpa]

theorem findGroup_foldl_none {α : Type} (keyOf : α → PyStr) (l : List α)
    (groups : List (PyStr × List α)) (k : PyStr)
    (h : findGroup groups k = none) :
    findGroup (l.foldl (addToGroup keyOf) groups) k =
      if (l.filter (fun x => keyOf x == k)).isEmpty then none
      else some (l.filter (fun x => keyOf x == k)) := by
  induction l generalizing groups with
  | nil => simp [h]
  | cons a rest ih =>
    rw [List.foldl_cons]
    by_cases hk : k = keyOf a
    · have h2 : findGroup (addToGroup keyOf groups a) k = some [a] := by
        rw [findGroup_addToGroup, if_pos hk, h]
        rfl
      rw [findGroup_foldl_some keyOf rest _ k [a] h2]
      have hpa : (keyOf a == k) = true := by
        simp [hk]
      simp [List.filter_cons, hpa]
    · have h2 : findGroup (addToGroup keyOf groups a) k = none := by
        rw [findGroup_addToGroup, if_neg hk]
        exact h
      rw [ih _ h2]
      have hpa : (keyOf a == k) = false := by
        simp
        exact fun h3 => hk h3.symm
      simp [List.filter_cons, hpa]

theorem mem_keys_addToGroup {α : Type} (keyOf : α → PyStr)
    (groups : List (PyStr × List α)) (a : α) (k : PyStr) :
    k ∈ (addToGroup keyOf groups a).map Prod.fst ↔
      k ∈ groups.map Prod.fst ∨ k = keyOf a := by
  induction groups with
  | nil => simp [addToGroup]
  | cons p rest ih =>
    obtain ⟨r, g⟩ := p
    unfold addToGroup
    by_cases hra : r = keyOf a
    · subst hra
      simp
      tauto
    · simp [hra, ih]
      tauto

theorem nodup_keys_addToGroup {α : Type} (keyOf : α → PyStr)
    (groups : List (PyStr × List α)) (a : α)
    (h : (groups.map Prod.fst).Nodup) :
    ((addToGroup keyOf groups a).map Prod.fst).Nodup := by
  induction groups with
  | nil => simp [addToGroup]
  | cons p rest ih =>
    obtain ⟨r, g⟩ := p
    rw [List.map_cons, List.nodup_cons] at h
    obtain ⟨hr, hrest⟩ := h
    unfold addToGroup
    by_cases hra : r = keyOf a
    · rw [if_pos hra, List.map_cons, List.nodup_cons]
      exact ⟨hr, hrest⟩
    · rw [if_neg hra, List.map_cons, List.nodup_cons]
      refine ⟨?_, ih hrest⟩
      intro hmem
      rcases (mem_keys_addToGroup keyOf rest a r).mp hmem with h1 | h2
      · exact hr h1
      · exact hra h2

theorem nodup_keys_foldl {α : Type} (keyOf : α → PyStr) (l : List α)
    (groups : List (PyStr × List α)) (h : (groups.map Prod.fst).Nodup) :
    ((l.foldl (addToGroup keyOf) groups).map Prod.fst).Nodup := by
  induction l generalizing groups with
  | nil => exact h
  | cons a rest ih =>
    rw [List.foldl_cons]
    exact ih _ (nodup_keys_addToGroup keyOf groups a h)

theorem findGroup_eq_of_mem {α : Type} (groups : List (PyStr × List α))
    (p : PyStr × List α) (hnd : (groups.map Prod.fst).Nodup) (hp : p ∈ groups) :
    findGroup groups p.1 = some p.2 := by
  induction groups with
  | nil => cases hp
  | cons q rest ih =>
    obtain ⟨r, g⟩ := q
    rw [List.map_cons, List.nodup_cons] at hnd
    obtain ⟨hr, hrest⟩ := hnd
    rcases List.mem_cons.mp hp with h1 | h2
    · subst h1
      simp [findGroup]
    · have hne : ¬ (r = p.1) := by
        intro he
        exact hr (he ▸ (List.mem_map.mpr ⟨p, h2, rfl⟩))
      unfold findGroup
      rw [if_neg hne]
      exact ih hrest h2

theorem mem_of_findGroup_eq {α : Type} (groups : List (PyStr × List α))
    (k : PyStr) (g : List α) (h : findGroup groups k = some g) : (k, g) ∈ groups := by
  induction groups with
  | nil => cases h
  | cons q rest ih =>
    obtain ⟨r, g2⟩ := q
    unfold findGroup at h
    by_cases hrk : r = k
    · rw [if_pos hrk] at h
      subst hrk
      cases h
      exact List.mem_cons_self _ _
    · rw [if_neg hrk] at h
      exact List.mem_cons_of_mem _ (ih h)

/-- Membership description of the grouping loop's result: every group in the
dict built by `groupBy` is exactly the ordered sublist of input elements
whose key matches the group's key. -/
theorem groupBy_group_eq_filter {α : Type} (keyOf : α → PyStr) (l : List α)
    (p : PyStr × List α) (hp : p ∈ groupBy keyOf l) :
    p.2 = l.filter (fun x => keyOf x == p.1) := by
  have hnd : ((groupBy keyOf l).map Prod.fst).Nodup := by
    have : (([] : List (PyStr × List α)).map Prod.fst).Nodup := by simp
    exact nodup_keys_foldl keyOf l [] this
  have hfind : findGroup (groupBy keyOf l) p.1 = some p.2 :=
    findGroup_eq_of_mem _ p hnd hp
  unfold groupBy at hfind
  rw [findGroup_foldl_none keyOf l [] p.1 rfl] at hfind
  by_cases he : (l.filter (fun x => keyOf x == p.1)).isEmpty
  · rw [if_pos he] at hfind
    cases hfind
  · rw [if_neg he] at hfind
    exact (Option.some_inj.mp hfind).symm

/-- Every input element's key appears as a group key in the dict built by
`groupBy`. -/
theorem groupBy_complete {α : Type} (keyOf : α → PyStr) (l : List α) (a : α)
    (ha : a ∈ l) : ∃ p ∈ groupBy keyOf l, p.1 = keyOf a := by
  have hne : ¬ (l.filter (fun x => keyOf x == keyOf a)).isEmpty := by
    have hmem : a ∈ l.filter (fun x => keyOf x == keyOf a) := by
      rw [List.mem_filter]
      exact ⟨ha, by simp⟩
    intro he
    rw [List.isEmpty_iff] at he
    rw [he] at hmem
    cases hmem
  have hfind :
      findGroup (groupBy keyOf l) (keyOf a) =
        some (l.filter (fun x => keyOf x == keyOf a)) := by
    unfold groupBy
    rw [findGroup_foldl_none keyOf l [] (keyOf a) rfl, if_neg hne]
  exact ⟨(keyOf a, l.filter (fun x => keyOf x == keyOf a)),
    mem_of_findGroup_eq _ _ _ hfind, rfl⟩

/-- One entry of the rail-arrivals JSON `eta` list (src/app.py lines 39-42):
`rt`, `destNm` as strings and the `arrT` timestamp already converted to epoch
seconds in the station's time zone. -/
structure CtaEta where
  rt : PyStr
  destNm : PyStr
  arrT : ℤ
deriving DecidableEq

/-- A normalized rail arrival as built by `get_cta_arrivals` (src/app.py
lines 45-50). -/
structure CtaArrival where
  station : PyStr
  route : PyStr
  destination : PyStr
  minutes : ℤ
deriving DecidableEq

/-- One configured station together with its fetched, decoded payload:
`none` models a response whose `ctatt` object has no `eta` field
(src/app.py line 38 treats that station as having zero arrivals). -/
structure CtaStationData where
  name : PyStr
  eta : Option (List CtaEta)
deriving DecidableEq

/-- The per-entry loop of `get_cta_arrivals` (src/app.py lines 39-50):
compute minutes away and keep the entry only when `minutes_away >= 0`. -/
def ctaProcessEtas (now : ℤ) (stationName : PyStr) : List CtaEta → List CtaArrival
  | [] => []
  | t :: rest =>
    let minutes_away := minutesAway t.arrT now
    if minutes_away ≥ 0 then
      ⟨stationName, t.rt, t.destNm, minutes_away⟩ :: ctaProcessEtas now stationName rest
    else ctaProcessEtas now stationName rest

/-- The station loop of `get_cta_arrivals` (src/app.py lines 33-50),
accumulating `cta_arrivals` across stations in iteration order. -/
def ctaCollect (now : ℤ) : List CtaStationData → List CtaArrival
  | [] => []
  | s :: rest =>
    (match s.eta with
     | some etas => ctaProcessEtas now s.name etas
     | none => []) ++ ctaCollect now rest

/-- The grouping and truncation of `get_cta_arrivals` (src/app.py lines
52-61): group by line, sort each line by minutes (Python's stable sort) and
keep the first 3. -/
def ctaLines (arrivals : List CtaArrival) : List (PyStr × List CtaArrival) :=
  (groupBy (fun a => a.route) arrivals).map
    (fun p => (p.1, (sortByKey (fun a => a.minutes) p.2).take 3))

/-- The whole of `get_cta_arrivals` (src/app.py lines 28-63), given the
authoritative `now` and each configured station's decoded response. -/
def get_cta_arrivals (now : ℤ) (stations : List CtaStationData) :
    List (PyStr × List CtaArrival) :=
  ctaLines (ctaCollect now stations)

/-- The per-entry loop of the standalone script src/cta.py (lines 27-37):
identical to `ctaProcessEtas` except that it appends every entry, with no
non-negativity filter. -/
def ctaScriptProcessEtas (now : ℤ) (stationName : PyStr) : List CtaEta → List CtaArrival
  | [] => []
  | t :: rest =>
    let minutes_away := minutesAway t.arrT now
    ⟨stationName, t.rt, t.destNm, minutes_away⟩ :: ctaScriptProcessEtas now stationName rest

/-- The `all_arrivals` accumulator of src/cta.py (lines 18-37). -/
def all_arrivals (now : ℤ) : List CtaStationData → List CtaArrival
  | [] => []
  | s :: rest =>
    (match s.eta with
     | some etas => ctaScriptProcessEtas now s.name etas
     | none => []) ++ all_arrivals now rest

/-- One per-stop update of a GTFS-realtime trip update: `departure` and
`arrival` are epoch seconds, with 0 modelling an unset protobuf field
(which is falsy in the Python `or` chain of src/app.py line 86). -/
structure StopTimeUpdate where
  stop_id : PyStr
  departure : ℤ
  arrival : ℤ
deriving DecidableEq

/-- The trip descriptor of a GTFS-realtime trip update. -/
structure TripDescriptor where
  route_id : PyStr
  trip_id : PyStr
deriving DecidableEq

/-- A GTFS-realtime trip update entity body. -/
structure TripUpdate where
  trip : TripDescriptor
  stop_time_update : List StopTimeUpdate
deriving DecidableEq

/-- A GTFS-realtime feed entity; `trip_update = none` models
`entity.HasField("trip_update")` being false (src/app.py line 78). -/
structure FeedEntity where
  trip_update : Option TripUpdate
deriving DecidableEq

/-- A normalized commuter-rail arrival as built by `get_metra_arrivals`
(src/app.py lines 98-101). -/
structure MetraArrival where
  train : PyStr
  minutes : ℤ
deriving DecidableEq

/-- The train-number extraction of src/app.py line 96 (also src/dashboard.py
line 97): `trip.trip.trip_id.split("_")[1].replace("ME", "")`; `none` models
the IndexError raised when the split has no second segment. -/
def trainNum (trip_id : PyStr) : Option PyStr :=
  ((splitU trip_id)[1]?).map removeME

/-- The per-stop-update loop of `get_metra_arrivals` (src/app.py lines
84-101): keep stop id MILLENNIUM, prefer departure over arrival time, skip
when both are unset, skip when minutes are negative, then extract the train
number (whose IndexError, if any, propagates as `.error`). -/
def metraStops (now : ℤ) (trip_id : PyStr) : List StopTimeUpdate → Except Unit (List MetraArrival)
  | [] => .ok []
  | su :: rest =>
    if su.stop_id = "MILLENNIUM".data then
      let time_stamp := if su.departure ≠ 0 then su.departure else su.arrival
      if time_stamp = 0 then metraStops now trip_id rest
      else
        let minutes_away := minutesAway time_stamp now
        if minutes_away < 0 then metraStops now trip_id rest
        else
          match trainNum trip_id with
          | none => .error ()
          | some tn =>
            (metraStops now trip_id rest).map (fun l => ⟨tn, minutes_away⟩ :: l)
    else metraStops now trip_id rest

/-- The entity loop of `get_metra_arrivals` (src/app.py lines 77-101): keep
entities holding a trip update on route ME. -/
def metraEntities (now : ℤ) : List FeedEntity → Except Unit (List MetraArrival)
  | [] => .ok []
  | e :: rest =>
    match e.trip_update with
    | none => metraEntities now rest
    | some tu =>
      if tu.trip.route_id ≠ "ME".data then metraEntities now rest
      else do
        let xs ← metraStops now tu.trip.trip_id tu.stop_time_update
        let ys ← metraEntities now rest
        pure (xs ++ ys)

/-- The whole of `get_metra_arrivals` in src/app.py (lines 65-103): the
request/decode outcome is the `resp` argument; any failure there, or inside
the loop, propagates to the caller (the function has no try/except), and a
successful run ends with `sorted(metra_arrivals, key=minutes)[:5]`. -/
def get_metra_arrivals (now : ℤ) (resp : Except Unit (List FeedEntity)) :
    Except Unit (List MetraArrival) := do
  let feed ← resp
  let arrivals ← metraEntities now feed
  pure ((sortByKey (fun a => a.minutes) arrivals).take 5)

/-- An arrival record holding only minutes, as built by the led_driver
fetchers (src/led_driver.py lines 133 and 162). -/
structure MinArrival where
  minutes : ℤ
deriving DecidableEq

/-- The per-stop-update loop of led_driver's `get_metra_arrivals`
(src/led_driver.py lines 121-133): same filters as the app version but no
train-number extraction, so nothing in the loop can raise. -/
def ledMetraStops (now : ℤ) : List StopTimeUpdate → List MinArrival
  | [] => []
  | su :: rest =>
    if su.stop_id = "MILLENNIUM".data then
      let time_stamp := if su.departure ≠ 0 then su.departure else su.arrival
      if time_stamp = 0 then ledMetraStops now rest
      else
        let minutes_away := minutesAway time_stamp now
        if minutes_away < 0 then ledMetraStops now rest
        else ⟨minutes_away⟩ :: ledMetraStops now rest
    else ledMetraStops now rest

/-- The entity loop of led_driver's `get_metra_arrivals` (src/led_driver.py
lines 115-133). -/
def ledMetraEntities (now : ℤ) : List FeedEntity → List MinArrival
  | [] => []
  | e :: rest =>
    match e.trip_update with
    | none => ledMetraEntities now rest
    | some tu =>
      if tu.trip.route_id ≠ "ME".data then ledMetraEntities now rest
      else ledMetraStops now tu.stop_time_update ++ ledMetraEntities now rest

/-- The whole of led_driver's `get_metra_arrivals` (src/led_driver.py lines
96-138): the body is wrapped in try/except returning `[]` on any failure, so
a failing fetch or decode yields the empty list. -/
def led_get_metra_arrivals (now : ℤ) (resp : Except Unit (List FeedEntity)) :
    List MinArrival :=
  match resp with
  | .error _ => []
  | .ok feed => (sortByKey (fun a => a.minutes) (ledMetraEntities now feed)).take 5

/-- One entry of the bus-predictions `prd` list (src/app.py lines 114-128):
route, destination and the countdown string `prdctdn`. -/
structure BusPred where
  rt : PyStr
  des : PyStr
  prdctdn : PyStr
deriving DecidableEq

/-- A normalized bus arrival as built by `get_bus_arrivals` (src/app.py
lines 124-129). -/
structure BusArrival where
  route : PyStr
  destination : PyStr
  stop : PyStr
  minutes : ℤ
deriving DecidableEq

/-- The per-prediction loop of `get_bus_arrivals` (src/app.py lines
114-129): skip predictions whose route is not accepted; countdown "DUE"
becomes 0 minutes, "DLY" is skipped entirely, anything else goes through
`int()` (whose ValueError propagates as `.error`). -/
def busPreds (routes : List PyStr) (stopName : PyStr) :
    List BusPred → Except Unit (List BusArrival)
  | [] => .ok []
  | b :: rest =>
    if b.rt ∈ routes then
      if b.prdctdn = "DUE".data then
        (busPreds routes stopName rest).map (fun l => ⟨b.rt, b.des, stopName, 0⟩ :: l)
      else if b.prdctdn = "DLY".data then busPreds routes stopName rest
      else
        match parsePyInt b.prdctdn with
        | none => .error ()
        | some m =>
          (busPreds routes stopName rest).map (fun l => ⟨b.rt, b.des, stopName, m⟩ :: l)
    else busPreds routes stopName rest

/-- One configured bus stop with its fetched, decoded payload: the outer
`Except` is the request/JSON outcome and the inner `none` models a
`bustime-response` object without a `prd` list (src/app.py line 113). -/
structure BusStopData where
  name : PyStr
  routes : List PyStr
  resp : Except Unit (Option (List BusPred))

/-- The stop loop of `get_bus_arrivals` (src/app.py lines 108-129); a
failure for any stop propagates, as the app version has no try/except. -/
def busCollect : List BusStopData → Except Unit (List BusArrival)
  | [] => .ok []
  | s :: rest => do
    let xs ←
      match s.resp with
      | .error e => Except.error e
      | .ok none => pure []
      | .ok (some preds) => busPreds s.routes s.name preds
    let ys ← busCollect rest
    pure (xs ++ ys)

/-- The whole of `get_bus_arrivals` in src/app.py (lines 105-131), ending in
`sorted(bus_arrivals, key=minutes)[:5]`. -/
def get_bus_arrivals (stops : List BusStopData) : Except Unit (List BusArrival) := do
  let arrivals ← busCollect stops
  pure ((sortByKey (fun a => a.minutes) arrivals).take 5)

/-- The per-prediction loop of led_driver's `get_bus_arrivals`
(src/led_driver.py lines 151-162): same mapping as the app version, but a
ValueError from `int()` is caught by the enclosing per-stop try, which keeps
the entries appended before the failure and moves on to the next stop. -/
def ledBusPreds (routes : List PyStr) : List BusPred → List MinArrival
  | [] => []
  | b :: rest =>
    if b.rt ∈ routes then
      if b.prdctdn = "DUE".data then ⟨0⟩ :: ledBusPreds routes rest
      else if b.prdctdn = "DLY".data then ledBusPreds routes rest
      else
        match parsePyInt b.prdctdn with
        | none => []
        | some m => ⟨m⟩ :: ledBusPreds routes rest
    else ledBusPreds routes rest

/-- One configured bus stop for the led_driver fetcher. -/
structure LedBusStopData where
  routes : List PyStr
  resp : Except Unit (Option (List BusPred))

/-- The stop loop of led_driver's `get_bus_arrivals` (src/led_driver.py
lines 145-164): each stop's work is inside try/except, so a failing stop
contributes only what was appended before the failure. -/
def led_busCollect : List LedBusStopData → List MinArrival
  | [] => []
  | s :: rest =>
    (match s.resp with
     | .error _ => []
     | .ok none => []
     | .ok (some preds) => ledBusPreds s.routes preds) ++ led_busCollect rest

/-- The whole of led_driver's `get_bus_arrivals` (src/led_driver.py lines
141-166). -/
def led_get_bus_arrivals (stops : List LedBusStopData) : List MinArrival :=
  (sortByKey (fun a => a.minutes) (led_busCollect stops)).take 5

/-- The process-wide weather cache (src/app.py line 133):
`{"temp": None, "last_updated": None}`. -/
structure WeatherCache where
  temp : Option ℤ
  last_updated : Option ℤ
deriving DecidableEq

/-- The whole of `get_weather` (src/app.py lines 135-154, identical in
src/led_driver.py lines 169-189). The `fetch` argument is the outcome of the
request / JSON decode / field access, any failure of which lands in the
`except` branch. Result: (returned value, cache after the call, whether a
network request was attempted). -/
def get_weather (cache : WeatherCache) (now : ℤ) (fetch : Except Unit ℚ) :
    Option ℤ × WeatherCache × Bool :=
  let tryFetch : Option ℤ × WeatherCache × Bool :=
    match fetch with
    | .ok t =>
      let temp := pyRound t
      (some temp, ⟨some temp, some now⟩, true)
    | .error _ => (cache.temp, cache, true)
  match cache.last_updated with
  | some lu =>
    if now - lu < 600 ∧ cache.temp.isSome then (cache.temp, cache, false)
    else tryFetch
  | none => tryFetch

/-- Helper turning the row-string glyph notation of the source into lists of
characters. -/
def glyph (rows : List String) : List PyStr :=
  rows.map String.data

/-- The FONT_3X5 table of src/app.py lines 163-194 (the src/led_driver.py
copy differs only in the glyph for N); `none` models a character absent from
the dict (`char in FONT_3X5` false). -/
def FONT_3X5 : Char → Option (List PyStr)
  | '0' => some (glyph ["111", "101", "101", "101", "111"])
  | '1' => some (glyph ["010", "110", "010", "010", "111"])
  | '2' => some (glyph ["111", "001", "111", "100", "111"])
  | '3' => some (glyph ["111", "001", "111", "001", "111"])
  | '4' => some (glyph ["101", "101", "111", "001", "001"])
  | '5' => some (glyph ["111", "100", "111", "001", "111"])
  | '6' => some (glyph ["111", "100", "111", "101", "111"])
  | '7' => some (glyph ["111", "001", "001", "001", "001"])
  | '8' => some (glyph ["111", "101", "111", "101", "111"])
  | '9' => some (glyph ["111", "101", "111", "001", "111"])
  | 'A' => some (glyph ["010", "101", "111", "101", "101"])
  | 'D' => some (glyph ["110", "101", "101", "101", "110"])
  | 'E' => some (glyph ["111", "100", "111", "100", "111"])
  | 'F' => some (glyph ["111", "100", "111", "100", "100"])
  | 'H' => some (glyph ["101", "101", "111", "101", "101"])
  | 'I' => some (glyph ["111", "010", "010", "010", "111"])
  | 'M' => some (glyph ["10001", "11011", "10101", "10001", "10001"])
  | 'N' => some (glyph ["10001", "11001", "10101", "10011", "10001"])
  | 'O' => some (glyph ["010", "101", "101", "101", "010"])
  | 'R' => some (glyph ["110", "101", "110", "101", "101"])
  | 'S' => some (glyph ["111", "100", "111", "001", "111"])
  | 'T' => some (glyph ["111", "010", "010", "010", "010"])
  | 'U' => some (glyph ["101", "101", "101", "101", "111"])
  | 'W' => some (glyph ["10001", "10001", "10101", "11011", "10001"])
  | '#' => some (glyph ["01010", "11111", "01010", "11111", "01010"])
  | '/' => some (glyph ["001", "010", "010", "010", "100"])
  | ':' => some (glyph ["0", "1", "0", "1", "0"])
  | '-' => some (glyph ["000", "000", "111", "000", "000"])
  | '.' => some (glyph ["0", "0", "0", "0", "1"])
  | ' ' => some (glyph ["0", "0", "0", "0", "0"])
  | _ => none

/-- The 32x32 indexed-color pixel grid (`[[0] * 32 for _ in range(32)]`),
rows outermost, as a list of rows of small integers. -/
abbrev Grid := List (List ℕ)

/-- Read one grid cell by natural row/column index. -/
def getCell (g : Grid) (y x : ℕ) : Option ℕ :=
  match g[y]? with
  | some row => row[x]?
  | none => none

/-- The guarded write of src/app.py lines 204-207: the color is stored at
`grid[grid_y][grid_x]` only after the bounds check
`0 <= grid_x < 32 and 0 <= grid_y < 32` passes; coordinates are integers
and may be negative. -/
def setCell (g : Grid) (gy gx : ℤ) (color : ℕ) : Grid :=
  if 0 ≤ gx ∧ gx < 32 ∧ 0 ≤ gy ∧ gy < 32 then
    g.set gy.toNat ((g.getD gy.toNat []).set gx.toNat color)
  else g

/-- The inner column loop of `draw_text` (src/app.py lines 202-207): walk
the row's pixels left to right, writing the color for each '1'. -/
def drawRow (g : Grid) (row : PyStr) (x gy : ℤ) (color : ℕ) : Grid :=
  match row with
  | [] => g
  | p :: rest =>
    drawRow (if p = '1' then setCell g gy x color else g) rest (x + 1) gy color

/-- The row loop of `draw_text` (src/app.py lines 201-207): walk the glyph's
rows top to bottom. -/
def drawPattern (g : Grid) (pattern : List PyStr) (x gy : ℤ) (color : ℕ) : Grid :=
  match pattern with
  | [] => g
  | r :: rest => drawPattern (drawRow g r x gy color) rest x (gy + 1) color

/-- The whole of `draw_text` (src/app.py lines 196-208, identical in
src/led_driver.py lines 192-205): characters missing from the font are
skipped without advancing, present ones are drawn and advance the cursor by
`len(pattern[0]) + 1`. -/
def draw_text (g : Grid) (text : PyStr) (x start_y : ℤ) (color : ℕ) : Grid :=
  match text with
  | [] => g
  | ch :: rest =>
    match FONT_3X5 ch with
    | some pattern =>
      draw_text (drawPattern g pattern x start_y color) rest
        (x + ((pattern.headD []).length : ℤ) + 1) start_y color
    | none => draw_text g rest x start_y color

/-- The whole of `get_time_str` (src/app.py lines 210-214, identical in
src/led_driver.py lines 208-213): the displayed string and color for the
arrival at `index`, or ("--", 1) when there is none. The function is generic
in the arrival record, reading its minutes field the way the dict access
`arrivals[index]["minutes"]` does. -/
def get_time_str {α : Type} (minutesOf : α → ℤ) (arrivals : List α) (index : ℕ) :
    PyStr × ℕ :=
  match arrivals[index]? with
  | some a =>
    (if minutesOf a > 0 then pyStr (minutesOf a) else ['0'],
     if minutesOf a < 2 then 2 else 1)
  | none => (['-', '-'], 1)

/-- The first-slot color override of the `led` route (src/app.py lines
254-257 and 270-273, same in src/led_driver.py): the color returned by
`get_time_str` is discarded and replaced by
`2 if time_str != "--" else 1` ("always green if scheduled"). -/
def firstSlotDraw {α : Type} (minutesOf : α → ℤ) (arrivals : List α) : PyStr × ℕ :=
  let time_str := (get_time_str minutesOf arrivals 0).1
  (time_str, if time_str ≠ ['-', '-'] then 2 else 1)

/-- The second-slot drawing of the `led` route (src/app.py lines 260-262 and
276-278): both the string and the color come from `get_time_str`. -/
def secondSlotDraw {α : Type} (minutesOf : α → ℤ) (arrivals : List α) : PyStr × ℕ :=
  get_time_str minutesOf arrivals 1

/-- Claim C5: for every pair of weather requests where the first fetch
succeeded and the second request occurs strictly less than 600 seconds after
the cache's last_updated timestamp, the second request performs no network
fetch and returns a value identical to the cached one. -/
theorem claim5_weather_cache_hit (cache : WeatherCache) (now lu v : ℤ)
    (fetch : Except Unit ℚ) (htemp : cache.temp = some v)
    (hlu : cache.last_updated = some lu) (hfresh : now - lu < 600) :
    get_weather cache now fetch = (some v, cache, false) := by
  have hsome : cache.temp.isSome := by
    rw [htemp]
    rfl
  unfold get_weather
  rw [hlu]
  dsimp only
  rw [if_pos ⟨hfresh, hsome⟩, htemp]

/-- Witness for C5 at a concrete cache and clock. -/
theorem claim5_witness :
    get_weather ⟨some 42, some 1000⟩ 1500 (Except.error ()) =
      (some 42, ⟨some 42, some 1000⟩, false) :=
  claim5_weather_cache_hit ⟨some 42, some 1000⟩ 1500 1000 42 (Except.error ())
    rfl rfl (by decide)

/-- Claim C6: for every weather request whose underlying fetch fails,
get_weather returns the previously cached value (possibly none) and never
raises; once a value has been observed, a failing refresh never makes the
result unknown. -/
theorem claim6_weather_failure (cache : WeatherCache) (now : ℤ) (e : Unit) :
    (get_weather cache now (Except.error e)).1 = cache.temp ∧
    (∀ v : ℤ, cache.temp = some v →
      (get_weather cache now (Except.error e)).1 = some v) := by
  have h1 : (get_weather cache now (Except.error e)).1 = cache.temp := by
    unfold get_weather
    cases cache.last_updated with
    | none => rfl
    | some lu =>
      dsimp only
      split
      · rfl
      · rfl
  exact ⟨h1, fun v hv => by rw [h1, hv]⟩

/-- Claim C10: when a weather fetch fails, neither field of the weather
cache is modified; a failed refresh leaves the cache state exactly as it was
before the call. -/
theorem claim10_weather_frame (cache : WeatherCache) (now : ℤ) (e : Unit) :
    (get_weather cache now (Except.error e)).2.1 = cache := by
  unfold get_weather
  cases cache.last_updated with
  | none => rfl
  | some lu =>
    dsimp only
    split
    · rfl
    · rfl

/-- The claim's reading of the train-number extraction: split the trip id on
underscores, take the second segment, and strip the route-code prefix "ME"
from the front of that segment only (for comparison with the source's
`replace`-based `trainNum`). -/
def stripFrontME : PyStr → PyStr
  | 'M' :: 'E' :: rest => rest
  | s => s

/-- The claim's train-number function, built from its own words. -/
def trainNumClaim (trip_id : PyStr) : Option PyStr :=
  ((splitU trip_id)[1]?).map stripFrontME

/-- Counterexample to claim C9: on trip id "ME_320ME_V1" the code removes
every occurrence of "ME" from the second segment and yields "320", while
stripping the prefix from the front would leave "320ME"; the two readings
disagree. -/
theorem claim9_counterexample :
    trainNum ("ME_320ME_V1".data) = some ("320".data) ∧
    trainNumClaim ("ME_320ME_V1".data) = some ("320ME".data) ∧
    trainNum ("ME_320ME_V1".data) ≠ trainNumClaim ("ME_320ME_V1".data) := by
  decide

theorem splitU_append_underscore (a r : List Char) (ha : '_' ∉ a) :
    splitU (a ++ '_' :: r) = a :: splitU r := by
  induction a with
  | nil => simp [splitU]
  | cons c rest ih =>
    have hc : ¬ (c = '_') := fun h => ha (h ▸ List.mem_cons_self c rest)
    have hrest : '_' ∉ rest := fun h => ha (List.mem_cons_of_mem c h)
    rw [List.cons_append]
    rw [splitU, if_neg hc, ih hrest]

/-- Claim C9 as amended: the extracted train identifier equals the trip id
split on underscore, second segment, with every occurrence of "ME" removed
from that segment (Python's `replace`, not just a leading-prefix strip); in
particular trip id "ME_ME320_V3_B" yields train "320". -/
theorem claim9_amended :
    (∀ pre seg post : PyStr, '_' ∉ pre → '_' ∉ seg →
      trainNum (pre ++ '_' :: (seg ++ '_' :: post)) = some (removeME seg)) ∧
    trainNum ("ME_ME320_V3_B".data) = some ("320".data) := by
  constructor
  · intro pre seg post hpre hseg
    unfold trainNum
    rw [splitU_append_underscore pre _ hpre, splitU_append_underscore seg post hseg]
    simp
  · decide

/-- A successful run of the per-prediction loop returns exactly the
corresponding filterMap of the input predictions. -/
theorem busPreds_filterMap (routes : List PyStr) (stopName : PyStr)
    (preds : List BusPred) (out : List BusArrival)
    (h : busPreds routes stopName preds = Except.ok out) :
    out = preds.filterMap (fun b =>
      if b.rt ∈ routes then
        if b.prdctdn = "DUE".data then some ⟨b.rt, b.des, stopName, 0⟩
        else if b.prdctdn = "DLY".data then none
        else (parsePyInt b.prdctdn).map (fun m => ⟨b.rt, b.des, stopName, m⟩)
      else none) := by
  induction preds generalizing out with
  | nil =>
    rw [busPreds] at h
    cases h
    rfl
  | cons b rest ih =>
    rw [busPreds] at h
    rw [List.filterMap_cons]
    by_cases hrt : b.rt ∈ routes
    · rw [if_pos hrt] at h
      by_cases hdue : b.prdctdn = "DUE".data
      · rw [if_pos hdue] at h
        cases hrec : busPreds routes stopName rest with
        | error e =>
          rw [hrec] at h
          cases h
        | ok l =>
          rw [hrec] at h
          simp only [Except.map] at h
          cases h
          simp only [if_pos hrt, if_pos hdue]
          rw [ih l hrec]
      · rw [if_neg hdue] at h
        by_cases hdly : b.prdctdn = "DLY".data
        · rw [if_pos hdly] at h
          simp only [if_pos hrt, if_neg hdue, if_pos hdly]
          exact ih out h
        · rw [if_neg hdly] at h
          cases hp : parsePyInt b.prdctdn with
          | none =>
            rw [hp] at h
            cases h
          | some m =>
            rw [hp] at h
            cases hrec : busPreds routes stopName rest with
            | error e =>
              rw [hrec] at h
              cases h
            | ok l =>
              rw [hrec] at h
              simp only [Except.map] at h
              cases h
              simp only [if_pos hrt, if_neg hdue, if_neg hdly, hp, Option.map_some']
              rw [ih l hrec]
    · rw [if_neg hrt] at h
      simp only [if_neg hrt]
      exact ih out h

/-- Claim C8: for every bus prediction in a stop's response: it is skipped
when its route is not in the stop's accepted route set; countdown "DUE"
yields an Arrival with 0 minutes; countdown "DLY" is excluded entirely;
otherwise the countdown string is parsed as an integer minute count. Stated
as: a successful run of the per-prediction loop returns exactly the
corresponding filterMap of the input. -/
theorem claim8_bus_mapping (routes : List PyStr) (stopName : PyStr)
    (preds : List BusPred) (out : List BusArrival)
    (h : busPreds routes stopName preds = Except.ok out) :
    out = preds.filterMap (fun b =>
      if b.rt ∈ routes then
        if b.prdctdn = "DUE".data then some ⟨b.rt, b.des, stopName, 0⟩
        else if b.prdctdn = "DLY".data then none
        else (parsePyInt b.prdctdn).map (fun m => ⟨b.rt, b.des, stopName, m⟩)
      else none) :=
  busPreds_filterMap routes stopName preds out h

/-- Witness for C8 at a concrete prediction list exercising all four cases:
an unaccepted route, a DUE countdown, a DLY countdown, and a numeric one. -/
theorem claim8_witness :
    ([⟨"2".data, "d1".data, "s".data, 0⟩, ⟨"2".data, "d3".data, "s".data, 7⟩] :
        List BusArrival) =
      ([⟨"6".data, "d0".data, "5".data⟩, ⟨"2".data, "d1".data, "DUE".data⟩,
        ⟨"2".data, "d2".data, "DLY".data⟩, ⟨"2".data, "d3".data, "7".data⟩] :
        List BusPred).filterMap (fun b =>
          if b.rt ∈ ["2".data] then
            if b.prdctdn = "DUE".data then some ⟨b.rt, b.des, "s".data, 0⟩
            else if b.prdctdn = "DLY".data then none
            else (parsePyInt b.prdctdn).map (fun m => ⟨b.rt, b.des, "s".data, m⟩)
          else none) :=
  claim8_bus_mapping ["2".data] ("s".data)
    [⟨"6".data, "d0".data, "5".data⟩, ⟨"2".data, "d1".data, "DUE".data⟩,
     ⟨"2".data, "d2".data, "DLY".data⟩, ⟨"2".data, "d3".data, "7".data⟩]
    [⟨"2".data, "d1".data, "s".data, 0⟩, ⟨"2".data, "d3".data, "s".data, 7⟩]
    (by rfl)

/-- Counterexample to claim C3: app.py's `get_metra_arrivals` (invoked by
both presentation entry points `home` and `led`) has no try/except, so a
failing fetch propagates as an error instead of yielding an empty arrivals
list. -/
theorem claim3_counterexample :
    get_metra_arrivals 0 (Except.error ()) = Except.error () ∧
    get_metra_arrivals 0 (Except.error ()) ≠ Except.ok [] :=
  ⟨rfl, fun h => Except.noConfusion ((rfl : get_metra_arrivals 0 (Except.error ()) = Except.error ()) ▸ h)⟩

/-- Claim C3 as amended: the led_driver fetchers return an empty arrivals
list on upstream failure (their bodies are wrapped in try/except), while the
app.py fetchers invoked by the Flask entry points have no handler and
propagate the failure to the caller. -/
theorem claim3_amended :
    (∀ (now : ℤ) (e : Unit), led_get_metra_arrivals now (Except.error e) = []) ∧
    (∀ stops : List LedBusStopData, (∀ s ∈ stops, ∃ e, s.resp = Except.error e) →
      led_get_bus_arrivals stops = []) ∧
    (∀ (now : ℤ) (e : Unit), get_metra_arrivals now (Except.error e) = Except.error e) := by
  refine ⟨fun now e => rfl, ?_, fun now e => rfl⟩
  intro stops hall
  have hcollect : led_busCollect stops = [] := by
    induction stops with
    | nil => rfl
    | cons s rest ih =>
      obtain ⟨e, he⟩ := hall s (List.mem_cons_self s rest)
      have hrest : ∀ s2 ∈ rest, ∃ e2, s2.resp = Except.error e2 :=
        fun s2 h2 => hall s2 (List.mem_cons_of_mem s h2)
      unfold led_busCollect
      rw [he, ih hrest]
      rfl
  unfold led_get_bus_arrivals
  rw [hcollect]
  rfl

theorem ctaProcessEtas_nonneg (now : ℤ) (st : PyStr) (etas : List CtaEta)
    (a : CtaArrival) (ha : a ∈ ctaProcessEtas now st etas) : 0 ≤ a.minutes := by
  induction etas with
  | nil => cases ha
  | cons t rest ih =>
    rw [ctaProcessEtas] at ha
    split at ha
    · next hge =>
      rcases List.mem_cons.mp ha with h1 | h2
      · subst h1
        exact hge
      · exact ih h2
    · exact ih ha

theorem ctaCollect_nonneg (now : ℤ) (stations : List CtaStationData)
    (a : CtaArrival) (ha : a ∈ ctaCollect now stations) : 0 ≤ a.minutes := by
  induction stations with
  | nil => cases ha
  | cons s rest ih =>
    rw [ctaCollect] at ha
    rcases List.mem_append.mp ha with h1 | h2
    · cases he : s.eta with
      | none =>
        rw [he] at h1
        cases h1
      | some etas =>
        rw [he] at h1
        exact ctaProcessEtas_nonneg now s.name etas a h1
    · exact ih h2

/-- Each group published by `ctaLines` is the first three elements of the
stable sort of exactly the input arrivals carrying that route label. -/
theorem ctaLines_group_eq (l : List CtaArrival) (p : PyStr × List CtaArrival)
    (hp : p ∈ ctaLines l) :
    p.2 = (sortByKey (fun a => a.minutes)
      (l.filter (fun a => a.route == p.1))).take 3 := by
  unfold ctaLines at hp
  rcases List.mem_map.mp hp with ⟨q, hq, hpq⟩
  have hqf := groupBy_group_eq_filter (fun a => a.route) l q hq
  rw [← hpq]
  dsimp only
  rw [hqf]

theorem ctaLines_mem_subset (l : List CtaArrival) (p : PyStr × List CtaArrival)
    (a : CtaArrival) (hp : p ∈ ctaLines l) (ha : a ∈ p.2) : a ∈ l := by
  rw [ctaLines_group_eq l p hp] at ha
  have h2 : a ∈ sortByKey (fun a => a.minutes)
      (l.filter (fun a => a.route == p.1)) :=
    (List.take_sublist 3 _).subset ha
  have h3 := (mem_sortByKey (fun a => a.minutes) a _).mp h2
  exact (List.mem_filter.mp h3).1

theorem metraStops_ok_nonneg (now : ℤ) (tid : PyStr) (sus : List StopTimeUpdate)
    (l : List MetraArrival) (h : metraStops now tid sus = Except.ok l) :
    ∀ a ∈ l, 0 ≤ a.minutes := by
  induction sus generalizing l with
  | nil =>
    rw [metraStops] at h
    cases h
    intro a ha
    cases ha
  | cons su rest ih =>
    rw [metraStops] at h
    dsimp only at h
    by_cases hstop : su.stop_id = "MILLENNIUM".data
    · rw [if_pos hstop] at h
      by_cases ht : (if su.departure ≠ 0 then su.departure else su.arrival) = 0
      · rw [if_pos ht] at h
        exact ih l h
      · rw [if_neg ht] at h
        by_cases hm : minutesAway (if su.departure ≠ 0 then su.departure else su.arrival) now < 0
        · rw [if_pos hm] at h
          exact ih l h
        · rw [if_neg hm] at h
          cases htr : trainNum tid with
          | none =>
            rw [htr] at h
            cases h
          | some tn =>
            rw [htr] at h
            cases hrec : metraStops now tid rest with
            | error e =>
              rw [hrec] at h
              cases h
            | ok l2 =>
              rw [hrec] at h
              simp only [Except.map] at h
              cases h
              intro a ha
              rcases List.mem_cons.mp ha with h1 | h2
              · subst h1
                dsimp only
                omega
              · exact ih l2 hrec a h2
    · rw [if_neg hstop] at h
      exact ih l h

theorem metraEntities_ok_nonneg (now : ℤ) (feed : List FeedEntity)
    (l : List MetraArrival) (h : metraEntities now feed = Except.ok l) :
    ∀ a ∈ l, 0 ≤ a.minutes := by
  induction feed generalizing l with
  | nil =>
    rw [metraEntities] at h
    cases h
    intro a ha
    cases ha
  | cons e rest ih =>
    rw [metraEntities] at h
    cases he : e.trip_update with
    | none =>
      rw [he] at h
      exact ih l h
    | some tu =>
      rw [he] at h
      dsimp only at h
      by_cases hroute : tu.trip.route_id ≠ "ME".data
      · rw [if_pos hroute] at h
        exact ih l h
      · rw [if_neg hroute] at h
        cases hst : metraStops now tu.trip.trip_id tu.stop_time_update with
        | error e2 =>
          rw [hst] at h
          cases h
        | ok xs =>
          rw [hst] at h
          cases hrec : metraEntities now rest with
          | error e2 =>
            rw [hrec] at h
            cases h
          | ok ys =>
            rw [hrec] at h
            simp only [bind, Except.bind, pure, Except.pure] at h
            cases h
            intro a ha
            rcases List.mem_append.mp ha with h1 | h2
            · exact metraStops_ok_nonneg now tu.trip.trip_id tu.stop_time_update xs hst a h1
            · exact ih ys hrec a h2

/-- Inversion of the tail of `get_metra_arrivals`: a successful run is the
sorted, truncated form of a successful entity-loop run. -/
theorem get_metra_arrivals_inv (now : ℤ) (resp : Except Unit (List FeedEntity))
    (out : List MetraArrival) (h : get_metra_arrivals now resp = Except.ok out) :
    ∃ feed arrivals, resp = Except.ok feed ∧
      metraEntities now feed = Except.ok arrivals ∧
      out = (sortByKey (fun a => a.minutes) arrivals).take 5 := by
  cases resp with
  | error e =>
    rw [get_metra_arrivals] at h
    cases h
  | ok feed =>
    rw [get_metra_arrivals] at h
    cases hent : metraEntities now feed with
    | error e =>
      rw [show (do
            let feed2 ← Except.ok (ε := Unit) feed
            let arrivals ← metraEntities now feed2
            pure ((sortByKey (fun a => a.minutes) arrivals).take 5)) =
          metraEntities now feed >>= fun arrivals =>
            pure ((sortByKey (fun a => a.minutes) arrivals).take 5) from rfl,
        hent] at h
      cases h
    | ok arrivals =>
      rw [show (do
            let feed2 ← Except.ok (ε := Unit) feed
            let arrivals ← metraEntities now feed2
            pure ((sortByKey (fun a => a.minutes) arrivals).take 5)) =
          metraEntities now feed >>= fun arrivals =>
            pure ((sortByKey (fun a => a.minutes) arrivals).take 5) from rfl,
        hent] at h
      simp only [bind, Except.bind, pure, Except.pure] at h
      cases h
      exact ⟨feed, arrivals, rfl, hent, rfl⟩

theorem ledMetraStops_nonneg (now : ℤ) (sus : List StopTimeUpdate)
    (a : MinArrival) (ha : a ∈ ledMetraStops now sus) : 0 ≤ a.minutes := by
  induction sus with
  | nil => cases ha
  | cons su rest ih =>
    rw [ledMetraStops] at ha
    by_cases hstop : su.stop_id = "MILLENNIUM".data
    · rw [if_pos hstop] at ha
      by_cases ht : (if su.departure ≠ 0 then su.departure else su.arrival) = 0
      · rw [if_pos ht] at ha
        exact ih ha
      · rw [if_neg ht] at ha
        by_cases hm : minutesAway (if su.departure ≠ 0 then su.departure else su.arrival) now < 0
        · rw [if_pos hm] at ha
          exact ih ha
        · rw [if_neg hm] at ha
          rcases List.mem_cons.mp ha with h1 | h2
          · subst h1
            dsimp only
            omega
          · exact ih h2
    · rw [if_neg hstop] at ha
      exact ih ha

theorem ledMetraEntities_nonneg (now : ℤ) (feed : List FeedEntity)
    (a : MinArrival) (ha : a ∈ ledMetraEntities now feed) : 0 ≤ a.minutes := by
  induction feed with
  | nil => cases ha
  | cons e rest ih =>
    rw [ledMetraEntities] at ha
    cases he : e.trip_update with
    | none =>
      rw [he] at ha
      exact ih ha
    | some tu =>
      rw [he] at ha
      dsimp only at ha
      by_cases hroute : tu.trip.route_id ≠ "ME".data
      · rw [if_pos hroute] at ha
        exact ih ha
      · rw [if_neg hroute] at ha
        rcases List.mem_append.mp ha with h1 | h2
        · exact ledMetraStops_nonneg now tu.stop_time_update a h1
        · exact ih h2

theorem busPreds_ok_minutes (routes : List PyStr) (stopName : PyStr)
    (preds : List BusPred) (out : List BusArrival)
    (h : busPreds routes stopName preds = Except.ok out) :
    ∀ a ∈ out, a.minutes = 0 ∨
      ∃ b ∈ preds, b.rt ∈ routes ∧ parsePyInt b.prdctdn = some a.minutes := by
  intro a ha
  rw [busPreds_filterMap routes stopName preds out h] at ha
  rcases List.mem_filterMap.mp ha with ⟨b, hb, hfb⟩
  by_cases hrt : b.rt ∈ routes
  · rw [if_pos hrt] at hfb
    by_cases hdue : b.prdctdn = "DUE".data
    · rw [if_pos hdue] at hfb
      cases hfb
      exact Or.inl rfl
    · rw [if_neg hdue] at hfb
      by_cases hdly : b.prdctdn = "DLY".data
      · rw [if_pos hdly] at hfb
        cases hfb
      · rw [if_neg hdly] at hfb
        cases hp : parsePyInt b.prdctdn with
        | none =>
          rw [hp] at hfb
          cases hfb
        | some m =>
          rw [hp] at hfb
          simp only [Option.map_some'] at hfb
          cases hfb
          exact Or.inr ⟨b, hb, hrt, hp⟩
  · rw [if_neg hrt] at hfb
    cases hfb

theorem busCollect_ok_mem (stops : List BusStopData) (out : List BusArrival)
    (h : busCollect stops = Except.ok out) (a : BusArrival) (ha : a ∈ out) :
    ∃ s ∈ stops, ∃ ps l2, s.resp = Except.ok (some ps) ∧
      busPreds s.routes s.name ps = Except.ok l2 ∧ a ∈ l2 := by
  induction stops generalizing out with
  | nil =>
    rw [busCollect] at h
    cases h
    cases ha
  | cons s rest ih =>
    rw [busCollect] at h
    cases hr : s.resp with
    | error e =>
      rw [hr] at h
      simp only [bind, Except.bind] at h
      cases h
    | ok op =>
      rw [hr] at h
      cases op with
      | none =>
        dsimp only at h
        cases hrec : busCollect rest with
        | error e =>
          rw [hrec] at h
          simp only [bind, Except.bind, pure, Except.pure] at h
          cases h
        | ok ys =>
          rw [hrec] at h
          simp only [bind, Except.bind, pure, Except.pure] at h
          cases h
          rcases ih ys hrec ha with ⟨s2, hs2, rest2⟩
          exact ⟨s2, List.mem_cons_of_mem s hs2, rest2⟩
      | some ps =>
        dsimp only at h
        cases hbp : busPreds s.routes s.name ps with
        | error e =>
          rw [hbp] at h
          simp only [bind, Except.bind] at h
          cases h
        | ok xs =>
          rw [hbp] at h
          cases hrec : busCollect rest with
          | error e =>
            rw [hrec] at h
            simp only [bind, Except.bind, pure, Except.pure] at h
            cases h
          | ok ys =>
            rw [hrec] at h
            simp only [bind, Except.bind, pure, Except.pure] at h
            cases h
            rcases List.mem_append.mp ha with h1 | h2
            · exact ⟨s, List.mem_cons_self s rest, ps, xs, hr, hbp, h1⟩
            · rcases ih ys hrec h2 with ⟨s2, hs2, rest2⟩
              exact ⟨s2, List.mem_cons_of_mem s hs2, rest2⟩

theorem get_bus_arrivals_inv (stops : List BusStopData) (out : List BusArrival)
    (h : get_bus_arrivals stops = Except.ok out) :
    ∃ arr, busCollect stops = Except.ok arr ∧
      out = (sortByKey (fun a => a.minutes) arr).take 5 := by
  rw [get_bus_arrivals] at h
  cases hc : busCollect stops with
  | error e =>
    rw [show (do
          let arrivals ← busCollect stops
          pure ((sortByKey (fun a => a.minutes) arrivals).take 5)) =
        busCollect stops >>= fun arrivals =>
          pure ((sortByKey (fun a => a.minutes) arrivals).take 5) from rfl,
      hc] at h
    simp only [bind, Except.bind] at h
    cases h
  | ok arr =>
    rw [show (do
          let arrivals ← busCollect stops
          pure ((sortByKey (fun a => a.minutes) arrivals).take 5)) =
        busCollect stops >>= fun arrivals =>
          pure ((sortByKey (fun a => a.minutes) arrivals).take 5) from rfl,
      hc] at h
    simp only [bind, Except.bind, pure, Except.pure] at h
    cases h
    exact ⟨arr, rfl, rfl⟩

theorem mem_of_mem_take_sort {α : Type} (key : α → ℤ) (n : ℕ) (l : List α)
    (a : α) (ha : a ∈ (sortByKey key l).take n) : a ∈ l :=
  (mem_sortByKey key a l).mp ((List.take_sublist n _).subset ha)

/-- Counterexample to claim C2: the standalone rail script src/cta.py (one
of the claim's cited fetchers) appends every entry with no negativity
filter, so an arrival timestamp 600 seconds in the past yields an entry with
minutes = -10 in `all_arrivals`. -/
theorem claim2_counterexample :
    ∃ a ∈ all_arrivals 600
        [⟨"Clark/Lake".data, some [⟨"G".data, "Harlem".data, 0⟩]⟩],
      a.minutes < 0 := by
  decide

/-- Every accepted prediction whose countdown parses to an integer passes
that value, negative or not, straight into the per-prediction loop's
output: the loop has no negativity filter. -/
theorem busPreds_mem_of_parse (routes : List PyStr) (stopName : PyStr)
    (preds : List BusPred) (out : List BusArrival) (b : BusPred) (m : ℤ)
    (h : busPreds routes stopName preds = Except.ok out)
    (hb : b ∈ preds) (hrt : b.rt ∈ routes)
    (hp : parsePyInt b.prdctdn = some m) :
    (⟨b.rt, b.des, stopName, m⟩ : BusArrival) ∈ out := by
  have hdue : ¬ (b.prdctdn = "DUE".data) := by
    intro he
    rw [he] at hp
    have : parsePyInt ("DUE".data) = none := by decide
    rw [this] at hp
    cases hp
  have hdly : ¬ (b.prdctdn = "DLY".data) := by
    intro he
    rw [he] at hp
    have : parsePyInt ("DLY".data) = none := by decide
    rw [this] at hp
    cases hp
  rw [busPreds_filterMap routes stopName preds out h]
  refine List.mem_filterMap.mpr ⟨b, hb, ?_⟩
  rw [if_pos hrt, if_neg hdue, if_neg hdly, hp]
  rfl

/-- A stop that appears in a successful run of the stop loop with a decoded
prediction list had its own per-prediction loop succeed, and everything that
loop produced is in the collected output. -/
theorem busCollect_ok_fwd (stops : List BusStopData) (arr : List BusArrival)
    (h : busCollect stops = Except.ok arr) (s : BusStopData) (hs : s ∈ stops)
    (ps : List BusPred) (hresp : s.resp = Except.ok (some ps)) :
    ∃ l2, busPreds s.routes s.name ps = Except.ok l2 ∧ ∀ x ∈ l2, x ∈ arr := by
  induction stops generalizing arr with
  | nil => cases hs
  | cons s0 rest ih =>
    rw [busCollect] at h
    cases hr : s0.resp with
    | error e =>
      rw [hr] at h
      simp only [bind, Except.bind] at h
      cases h
    | ok op =>
      rw [hr] at h
      cases op with
      | none =>
        dsimp only at h
        cases hrec : busCollect rest with
        | error e =>
          rw [hrec] at h
          simp only [bind, Except.bind, pure, Except.pure] at h
          cases h
        | ok ys =>
          rw [hrec] at h
          simp only [bind, Except.bind, pure, Except.pure] at h
          cases h
          rcases List.mem_cons.mp hs with h1 | h2
          · subst h1
            rw [hr] at hresp
            cases hresp
          · rcases ih ys hrec h2 with ⟨l2, hl2, hsub⟩
            exact ⟨l2, hl2, fun x hx =>
              List.mem_append.mpr (Or.inr (hsub x hx))⟩
      | some ps0 =>
        dsimp only at h
        cases hbp : busPreds s0.routes s0.name ps0 with
        | error e =>
          rw [hbp] at h
          simp only [bind, Except.bind] at h
          cases h
        | ok xs =>
          rw [hbp] at h
          cases hrec : busCollect rest with
          | error e =>
            rw [hrec] at h
            simp only [bind, Except.bind, pure, Except.pure] at h
            cases h
          | ok ys =>
            rw [hrec] at h
            simp only [bind, Except.bind, pure, Except.pure] at h
            cases h
            rcases List.mem_cons.mp hs with h1 | h2
            · subst h1
              rw [hr] at hresp
              cases hresp
              exact ⟨xs, hbp, fun x hx =>
                List.mem_append.mpr (Or.inl hx)⟩
            · rcases ih ys hrec h2 with ⟨l2, hl2, hsub⟩
              exact ⟨l2, hl2, fun x hx =>
                List.mem_append.mpr (Or.inr (hsub x hx))⟩

/-- Sorting ascending and truncating keeps a witness of negativity: if some
element's key is negative, the head of the sorted list is negative too and
survives any positive-length truncation. -/
theorem neg_mem_take_sort {α : Type} (key : α → ℤ) (n : ℕ) (hn : 0 < n)
    (l : List α) (a : α) (ha : a ∈ l) (hneg : key a < 0) :
    ∃ b ∈ (sortByKey key l).take n, key b < 0 := by
  have hmem : a ∈ sortByKey key l := (mem_sortByKey key a l).mpr ha
  cases hs : sortByKey key l with
  | nil =>
    rw [hs] at hmem
    cases hmem
  | cons h t =>
    have hp : (h :: t).Pairwise (fun x y => key x ≤ key y) := by
      rw [← hs]
      exact sortByKey_pairwise key l
    have hha : key h ≤ key a := by
      rw [hs] at hmem
      rcases List.mem_cons.mp hmem with h1 | h2
      · rw [h1]
      · exact (List.pairwise_cons.mp hp).1 a h2
    obtain ⟨n2, rfl⟩ : ∃ n2, n = n2 + 1 := ⟨n - 1, by omega⟩
    exact ⟨h, List.mem_cons_self h _, by omega⟩

/-- Claim C2 as amended: in src/app.py the rail and commuter-rail fetchers
(and led_driver's commuter-rail fetcher) discard entries whose computed
minutes-until-arrival is negative, so every minutes value they emit is
non-negative; the standalone src/cta.py script appends every entry with no
negativity filter; and the bus fetcher applies no negativity filter of its
own — an accepted prediction whose countdown parses to an integer passes
that value, negative or not, into the output — so a successful bus run's
output is non-negative exactly when no accepted prediction's countdown
parses to a negative integer. -/
theorem claim2_amended :
    (∀ (now : ℤ) (stations : List CtaStationData) (p : PyStr × List CtaArrival)
        (a : CtaArrival), p ∈ get_cta_arrivals now stations → a ∈ p.2 →
        0 ≤ a.minutes) ∧
    (∀ (now : ℤ) (resp : Except Unit (List FeedEntity)) (out : List MetraArrival)
        (a : MetraArrival), get_metra_arrivals now resp = Except.ok out →
        a ∈ out → 0 ≤ a.minutes) ∧
    (∀ (now : ℤ) (resp : Except Unit (List FeedEntity)) (a : MinArrival),
        a ∈ led_get_metra_arrivals now resp → 0 ≤ a.minutes) ∧
    (∀ (routes : List PyStr) (stopName : PyStr) (preds : List BusPred)
        (out : List BusArrival) (b : BusPred) (m : ℤ),
        busPreds routes stopName preds = Except.ok out → b ∈ preds →
        b.rt ∈ routes → parsePyInt b.prdctdn = some m →
        (⟨b.rt, b.des, stopName, m⟩ : BusArrival) ∈ out) ∧
    (∀ (stops : List BusStopData) (out : List BusArrival),
        get_bus_arrivals stops = Except.ok out →
        (∀ s ∈ stops, ∀ ps, s.resp = Except.ok (some ps) →
          ∀ b ∈ ps, b.rt ∈ s.routes →
          ∀ m, parsePyInt b.prdctdn = some m → 0 ≤ m) →
        ∀ a ∈ out, 0 ≤ a.minutes) ∧
    (∀ (stops : List BusStopData) (out : List BusArrival),
        get_bus_arrivals stops = Except.ok out →
        ∀ s ∈ stops, ∀ ps, s.resp = Except.ok (some ps) →
        ∀ b ∈ ps, b.rt ∈ s.routes →
        ∀ m, parsePyInt b.prdctdn = some m → m < 0 →
        ∃ a ∈ out, a.minutes < 0) ∧
    (get_bus_arrivals
        [⟨"s".data, ["2".data], Except.ok (some [⟨"2".data, "d".data, "-5".data⟩])⟩] =
      Except.ok [⟨"2".data, "d".data, "s".data, -5⟩]) := by
  refine ⟨?_, ?_, ?_, ?_, ?_, ?_, ?_⟩
  · intro now stations p a hp ha
    exact ctaCollect_nonneg now stations a
      (ctaLines_mem_subset (ctaCollect now stations) p a hp ha)
  · intro now resp out a hok ha
    rcases get_metra_arrivals_inv now resp out hok with ⟨feed, arr, hresp, hent, hout⟩
    rw [hout] at ha
    exact metraEntities_ok_nonneg now feed arr hent a
      (mem_of_mem_take_sort _ 5 arr a ha)
  · intro now resp a ha
    cases resp with
    | error e => cases ha
    | ok feed =>
      unfold led_get_metra_arrivals at ha
      exact ledMetraEntities_nonneg now feed a (mem_of_mem_take_sort _ 5 _ a ha)
  · intro routes stopName preds out b m hok hb hrt hp
    exact busPreds_mem_of_parse routes stopName preds out b m hok hb hrt hp
  · intro stops out hok hparse a ha
    rcases get_bus_arrivals_inv stops out hok with ⟨arr, hcoll, hout⟩
    rw [hout] at ha
    have ha2 : a ∈ arr := mem_of_mem_take_sort _ 5 arr a ha
    rcases busCollect_ok_mem stops arr hcoll a ha2 with
      ⟨s, hs, ps, l2, hresp, hbp, hal2⟩
    rcases busPreds_ok_minutes s.routes s.name ps l2 hbp a hal2 with
      h0 | ⟨b, hb, hrt, hpm⟩
    · omega
    · exact hparse s hs ps hresp b hb hrt a.minutes hpm
  · intro stops out hok s hs ps hresp b hb hrt m hp hneg
    rcases get_bus_arrivals_inv stops out hok with ⟨arr, hcoll, hout⟩
    rcases busCollect_ok_fwd stops arr hcoll s hs ps hresp with ⟨l2, hbp, hsub⟩
    have hmem : (⟨b.rt, b.des, s.name, m⟩ : BusArrival) ∈ arr :=
      hsub _ (busPreds_mem_of_parse s.routes s.name ps l2 b m hbp hb hrt hp)
    rw [hout]
    exact neg_mem_take_sort (fun a => a.minutes) 5 (by omega) arr
      ⟨b.rt, b.des, s.name, m⟩ hmem hneg
  · rfl

/-- Claim C4: the grouped aggregation partitions by route label, each output
group being the first three of the stable ascending-by-minutes sort of
exactly the arrivals bearing that label (so ties keep fetch order), with
every input route represented; the flat aggregations (commuter rail and
bus) are sorted ascending by minutes with length at most 5. -/
theorem claim4_aggregation :
    (∀ (l : List CtaArrival) (p : PyStr × List CtaArrival), p ∈ ctaLines l →
        p.2.length ≤ 3 ∧
        p.2.Pairwise (fun a b => a.minutes ≤ b.minutes) ∧
        p.2 = (sortByKey (fun a => a.minutes)
          (l.filter (fun a => a.route == p.1))).take 3) ∧
    (∀ (l : List CtaArrival) (a : CtaArrival), a ∈ l →
        ∃ p ∈ ctaLines l, p.1 = a.route) ∧
    (∀ (l : List CtaArrival) (m : ℤ),
        (sortByKey (fun a => a.minutes) l).filter (fun a => a.minutes == m) =
          l.filter (fun a => a.minutes == m)) ∧
    (∀ (now : ℤ) (resp : Except Unit (List FeedEntity)) (out : List MetraArrival),
        get_metra_arrivals now resp = Except.ok out →
        out.length ≤ 5 ∧ out.Pairwise (fun a b => a.minutes ≤ b.minutes)) ∧
    (∀ (stops : List BusStopData) (out : List BusArrival),
        get_bus_arrivals stops = Except.ok out →
        out.length ≤ 5 ∧ out.Pairwise (fun a b => a.minutes ≤ b.minutes)) := by
  refine ⟨?_, ?_, ?_, ?_, ?_⟩
  · intro l p hp
    have hchar := ctaLines_group_eq l p hp
    refine ⟨?_, ?_, hchar⟩
    · rw [hchar]
      exact List.length_take_le 3 _
    · rw [hchar]
      exact (sortByKey_pairwise (fun a : CtaArrival => a.minutes) _).sublist
        (List.take_sublist 3 _)
  · intro l a ha
    rcases groupBy_complete (fun a => a.route) l a ha with ⟨q, hq, hq1⟩
    refine ⟨(q.1, (sortByKey (fun a => a.minutes) q.2).take 3), ?_, hq1⟩
    unfold ctaLines
    exact List.mem_map.mpr ⟨q, hq, rfl⟩
  · intro l m
    exact sortByKey_stable (fun a => a.minutes) l m
  · intro now resp out hok
    rcases get_metra_arrivals_inv now resp out hok with ⟨feed, arr, hresp, hent, hout⟩
    rw [hout]
    exact ⟨List.length_take_le 5 _,
      (sortByKey_pairwise (fun a => a.minutes) arr).sublist (List.take_sublist 5 _)⟩
  · intro stops out hok
    rcases get_bus_arrivals_inv stops out hok with ⟨arr, hcoll, hout⟩
    rw [hout]
    exact ⟨List.length_take_le 5 _,
      (sortByKey_pairwise (fun a => a.minutes) arr).sublist (List.take_sublist 5 _)⟩

theorem pyStr_ne_dashdash (m : ℤ) : pyStr m ≠ ['-', '-'] := by
  unfold pyStr
  split
  · intro h
    injection h with h1 h2
    exact dash_not_mem_natDigitsAux _ _ (h2 ▸ List.mem_singleton.mpr rfl)
  · intro h
    exact dash_not_mem_natDigitsAux _ _
      (h ▸ List.mem_cons_self '-' ['-'])

theorem get_time_str_fst_ne {α : Type} (minutesOf : α → ℤ) (arrivals : List α)
    (i : ℕ) (a : α) (h : arrivals[i]? = some a) :
    (get_time_str minutesOf arrivals i).1 ≠ ['-', '-'] := by
  unfold get_time_str
  rw [h]
  dsimp only
  split
  · exact pyStr_ne_dashdash _
  · decide

/-- Counterexample to claim C1: a first-slot arrival of 5 minutes is drawn
in HIGHLIGHT color 2 (the led route overrides the color from get_time_str
with "always green if scheduled"), while the claim requires PRIMARY color 1
for any value of 2 or more minutes. -/
theorem claim1_counterexample :
    firstSlotDraw MinArrival.minutes [⟨5⟩] = (['5'], 2) ∧ (2 : ℕ) ≠ 1 := by
  exact ⟨by decide, by decide⟩

/-- Claim C1 as amended: the stated color rule (0 or 1 minutes → HIGHLIGHT,
2 or more → PRIMARY, placeholder → PRIMARY, 0 displayed as "0") holds for
the second arrival slot of each label row; in the first slot the color from
get_time_str is discarded and any present arrival is drawn in HIGHLIGHT
regardless of its minutes, the placeholder in PRIMARY. -/
theorem claim1_amended :
    (∀ (α : Type) (minutesOf : α → ℤ) (arrivals : List α) (a : α),
        arrivals[0]? = some a → (firstSlotDraw minutesOf arrivals).2 = 2) ∧
    (∀ (α : Type) (minutesOf : α → ℤ) (arrivals : List α),
        arrivals[0]? = none → firstSlotDraw minutesOf arrivals = (['-', '-'], 1)) ∧
    (∀ (α : Type) (minutesOf : α → ℤ) (arrivals : List α) (a : α),
        arrivals[1]? = some a →
        ((minutesOf a = 0 ∨ minutesOf a = 1) →
          (secondSlotDraw minutesOf arrivals).2 = 2) ∧
        (2 ≤ minutesOf a → (secondSlotDraw minutesOf arrivals).2 = 1)) ∧
    (∀ (α : Type) (minutesOf : α → ℤ) (arrivals : List α),
        arrivals[1]? = none → secondSlotDraw minutesOf arrivals = (['-', '-'], 1)) ∧
    (∀ (α : Type) (minutesOf : α → ℤ) (arrivals : List α) (i : ℕ) (a : α),
        arrivals[i]? = some a → minutesOf a = 0 →
        (get_time_str minutesOf arrivals i).1 = ['0']) := by
  refine ⟨?_, ?_, ?_, ?_, ?_⟩
  · intro α minutesOf arrivals a h
    unfold firstSlotDraw
    dsimp only
    rw [if_pos (get_time_str_fst_ne minutesOf arrivals 0 a h)]
  · intro α minutesOf arrivals h
    unfold firstSlotDraw get_time_str
    rw [h]
    rfl
  · intro α minutesOf arrivals a h
    unfold secondSlotDraw get_time_str
    rw [h]
    dsimp only
    constructor
    · intro h01
      rw [if_pos (by omega : minutesOf a < 2)]
    · intro h2
      rw [if_neg (by omega : ¬ (minutesOf a < 2))]
  · intro α minutesOf arrivals h
    unfold secondSlotDraw get_time_str
    rw [h]
  · intro α minutesOf arrivals i a h hm
    unfold get_time_str
    rw [h]
    dsimp only
    rw [if_neg (by omega : ¬ (minutesOf a > 0))]

/-- Characterization of the guarded write: a cell changes only when the
bounds check passes, the cell is the addressed one, and it exists in the
grid; it then holds exactly the written color. -/
theorem getCell_setCell (g : Grid) (gy gx : ℤ) (c : ℕ) (y x : ℕ) :
    getCell (setCell g gy gx c) y x =
      if 0 ≤ gx ∧ gx < 32 ∧ 0 ≤ gy ∧ gy < 32 ∧ gy.toNat = y ∧ gx.toNat = x ∧
          (getCell g y x).isSome then some c
      else getCell g y x := by
  unfold setCell getCell
  by_cases hb : 0 ≤ gx ∧ gx < 32 ∧ 0 ≤ gy ∧ gy < 32
  · rw [if_pos hb]
    obtain ⟨hx0, hx32, hy0, hy32⟩ := hb
    rw [List.getElem?_set]
    by_cases hy : gy.toNat = y
    · rw [if_pos hy]
      by_cases hlen : gy.toNat < g.length
      · rw [if_pos hlen]
        have hgy : g[y]? = some (g.getD gy.toNat []) := by
          rw [List.getD_eq_getElem?_getD, ← hy, List.getElem?_eq_getElem hlen]
          rfl
        rw [hgy]
        simp only [Option.some_bind]
        rw [List.getElem?_set]
        by_cases hx : gx.toNat = x
        · rw [if_pos hx]
          by_cases hrl : gx.toNat < (g.getD gy.toNat []).length
          · rw [if_pos hrl]
            have hiss : ((g.getD gy.toNat [])[x]?).isSome := by
              rw [← hx, List.getElem?_eq_getElem hrl]
              rfl
            rw [if_pos ⟨hx0, hx32, hy0, hy32, hy, hx, hiss⟩]
          · rw [if_neg hrl]
            have hnone : (g.getD gy.toNat [])[x]? = none := by
              rw [← hx]
              exact List.getElem?_eq_none (by omega)
            rw [hnone]
            rw [if_neg (fun hcond => by cases hcond.2.2.2.2.2.2)]
        · rw [if_neg hx]
          rw [if_neg (fun hcond => hx hcond.2.2.2.2.2.1)]
      · rw [if_neg hlen]
        have hgy : g[y]? = none := by
          rw [← hy]
          exact List.getElem?_eq_none (by omega)
        rw [hgy]
        simp only [Option.none_bind]
        rw [if_neg (fun hcond => by cases hcond.2.2.2.2.2.2)]
    · rw [if_neg hy]
      rw [if_neg (fun hcond => hy hcond.2.2.2.2.1)]
  · rw [if_neg hb]
    rw [if_neg (fun hcond => hb ⟨hcond.1, hcond.2.1, hcond.2.2.1, hcond.2.2.2.1⟩)]

/-- The relation holding between a grid and any grid obtained from it by
guarded writes of one color: every changed cell is inside the 32x32 bounds
and carries that color. -/
def SoundStep (g1 g2 : Grid) (c : ℕ) : Prop :=
  ∀ y x : ℕ, getCell g2 y x ≠ getCell g1 y x →
    y < 32 ∧ x < 32 ∧ getCell g2 y x = some c

theorem soundStep_refl (g : Grid) (c : ℕ) : SoundStep g g c :=
  fun _ _ hne => absurd rfl hne

theorem soundStep_trans {g1 g2 g3 : Grid} {c : ℕ}
    (h12 : SoundStep g1 g2 c) (h23 : SoundStep g2 g3 c) : SoundStep g1 g3 c := by
  intro y x hne
  by_cases h : getCell g3 y x = getCell g2 y x
  · rw [h] at hne ⊢
    exact h12 y x hne
  · exact h23 y x h

theorem soundStep_preserve {g1 g2 : Grid} {c : ℕ} (h : SoundStep g1 g2 c)
    (y x : ℕ) (hv : getCell g1 y x = some c) : getCell g2 y x = some c := by
  by_cases hch : getCell g2 y x = getCell g1 y x
  · rw [hch, hv]
  · exact (h y x hch).2.2

theorem setCell_sound (g : Grid) (gy gx : ℤ) (c : ℕ) :
    SoundStep g (setCell g gy gx c) c := by
  intro y x hne
  rw [getCell_setCell] at hne ⊢
  by_cases hcond : 0 ≤ gx ∧ gx < 32 ∧ 0 ≤ gy ∧ gy < 32 ∧ gy.toNat = y ∧
      gx.toNat = x ∧ (getCell g y x).isSome
  · rw [if_pos hcond]
    obtain ⟨hx0, hx32, hy0, hy32, hy, hx, hiss⟩ := hcond
    exact ⟨by omega, by omega, rfl⟩
  · rw [if_neg hcond] at hne
    exact absurd rfl hne

theorem drawRow_sound (g : Grid) (row : PyStr) (x gy : ℤ) (c : ℕ) :
    SoundStep g (drawRow g row x gy c) c := by
  induction row generalizing g x with
  | nil => exact soundStep_refl g c
  | cons p rest ih =>
    rw [drawRow]
    by_cases hp : p = '1'
    · rw [if_pos hp]
      exact soundStep_trans (setCell_sound g gy x c) (ih _ _)
    · rw [if_neg hp]
      exact ih _ _

theorem drawPattern_sound (g : Grid) (pattern : List PyStr) (x gy : ℤ) (c : ℕ) :
    SoundStep g (drawPattern g pattern x gy c) c := by
  induction pattern generalizing g gy with
  | nil => exact soundStep_refl g c
  | cons r rest ih =>
    rw [drawPattern]
    exact soundStep_trans (drawRow_sound g r x gy c) (ih _ _)

theorem draw_text_sound (g : Grid) (text : PyStr) (x sy : ℤ) (c : ℕ) :
    SoundStep g (draw_text g text x sy c) c := by
  induction text generalizing g x with
  | nil => exact soundStep_refl g c
  | cons ch rest ih =>
    rw [draw_text]
    cases hf : FONT_3X5 ch with
    | none => exact ih _ _
    | some pattern =>
      exact soundStep_trans (drawPattern_sound g pattern x sy c) (ih _ _)

/-- Well-formedness of the render grid: 32 rows of 32 cells, as created by
`[[0] * 32 for _ in range(32)]`. -/
def GridWF (g : Grid) : Prop :=
  g.length = 32 ∧ ∀ row ∈ g, row.length = 32

theorem setCell_WF (g : Grid) (gy gx : ℤ) (c : ℕ) (h : GridWF g) :
    GridWF (setCell g gy gx c) := by
  obtain ⟨hlen, hrows⟩ := h
  unfold setCell
  split
  · next hb =>
    obtain ⟨hx0, hx32, hy0, hy32⟩ := hb
    constructor
    · rw [List.length_set]
      exact hlen
    · intro row hrow
      rcases List.mem_or_eq_of_mem_set hrow with h1 | h2
      · exact hrows row h1
      · subst h2
        rw [List.length_set]
        have hin : gy.toNat < g.length := by omega
        have hgd : g.getD gy.toNat [] = g[gy.toNat] := by
          rw [List.getD_eq_getElem?_getD, List.getElem?_eq_getElem hin]
          rfl
        rw [hgd]
        exact hrows _ (List.getElem_mem hin)
  · exact ⟨hlen, hrows⟩

theorem drawRow_WF (g : Grid) (row : PyStr) (x gy : ℤ) (c : ℕ) (h : GridWF g) :
    GridWF (drawRow g row x gy c) := by
  induction row generalizing g x with
  | nil => exact h
  | cons p rest ih =>
    rw [drawRow]
    by_cases hp : p = '1'
    · rw [if_pos hp]
      exact ih _ _ (setCell_WF g gy x c h)
    · rw [if_neg hp]
      exact ih _ _ h

theorem drawPattern_WF (g : Grid) (pattern : List PyStr) (x gy : ℤ) (c : ℕ)
    (h : GridWF g) : GridWF (drawPattern g pattern x gy c) := by
  induction pattern generalizing g gy with
  | nil => exact h
  | cons r rest ih =>
    rw [drawPattern]
    exact ih _ _ (drawRow_WF g r x gy c h)

theorem setCell_complete (g : Grid) (gy gx : ℤ) (c : ℕ) (h : GridWF g)
    (hy0 : 0 ≤ gy) (hy32 : gy < 32) (hx0 : 0 ≤ gx) (hx32 : gx < 32) :
    getCell (setCell g gy gx c) gy.toNat gx.toNat = some c := by
  rw [getCell_setCell]
  obtain ⟨hlen, hrows⟩ := h
  have hiss : (getCell g gy.toNat gx.toNat).isSome := by
    unfold getCell
    have hin : gy.toNat < g.length := by omega
    rw [List.getElem?_eq_getElem hin]
    simp only [Option.some_bind]
    have hxin : gx.toNat < (g[gy.toNat]).length := by
      rw [hrows _ (List.getElem_mem hin)]
      omega
    rw [List.getElem?_eq_getElem hxin]
    rfl
  rw [if_pos ⟨hx0, hx32, hy0, hy32, rfl, rfl, hiss⟩]

theorem drawRow_complete (g : Grid) (row : PyStr) (x gy : ℤ) (c : ℕ) (k : ℕ)
    (hwf : GridWF g) (hk : row[k]? = some '1')
    (hx0 : 0 ≤ x + (k : ℤ)) (hx32 : x + (k : ℤ) < 32)
    (hy0 : 0 ≤ gy) (hy32 : gy < 32) :
    getCell (drawRow g row x gy c) gy.toNat (x + (k : ℤ)).toNat = some c := by
  induction row generalizing g x k with
  | nil => simp at hk
  | cons p rest ih =>
    rw [drawRow]
    cases k with
    | zero =>
      have hp : p = '1' := by
        rw [List.getElem?_cons_zero] at hk
        exact Option.some_inj.mp hk
      rw [if_pos hp]
      have hxz : x + ((0 : ℕ) : ℤ) = x := by
        push_cast
        ring
      rw [hxz]
      have hbase : getCell (setCell g gy x c) gy.toNat x.toNat = some c :=
        setCell_complete g gy x c hwf hy0 hy32 (by omega) (by omega)
      exact soundStep_preserve (drawRow_sound (setCell g gy x c) rest (x + 1) gy c)
        gy.toNat x.toNat hbase
    | succ k2 =>
      rw [List.getElem?_cons_succ] at hk
      have heq : x + ((k2 + 1 : ℕ) : ℤ) = (x + 1) + (k2 : ℤ) := by
        push_cast
        ring
      rw [heq]
      by_cases hp : p = '1'
      · rw [if_pos hp]
        exact ih (setCell g gy x c) (x + 1) k2 (setCell_WF g gy x c hwf) hk
          (by omega) (by omega)
      · rw [if_neg hp]
        exact ih g (x + 1) k2 hwf hk (by omega) (by omega)

theorem drawPattern_complete (g : Grid) (pattern : List PyStr) (x gy : ℤ)
    (c : ℕ) (r k : ℕ) (rowStr : PyStr) (hwf : GridWF g)
    (hr : pattern[r]? = some rowStr) (hk : rowStr[k]? = some '1')
    (hx0 : 0 ≤ x + (k : ℤ)) (hx32 : x + (k : ℤ) < 32)
    (hy0 : 0 ≤ gy + (r : ℤ)) (hy32 : gy + (r : ℤ) < 32) :
    getCell (drawPattern g pattern x gy c) (gy + (r : ℤ)).toNat
      (x + (k : ℤ)).toNat = some c := by
  induction pattern generalizing g gy r with
  | nil => simp at hr
  | cons row0 rest ih =>
    rw [drawPattern]
    cases r with
    | zero =>
      have hrow : row0 = rowStr := by
        rw [List.getElem?_cons_zero] at hr
        exact Option.some_inj.mp hr
      subst hrow
      have hyz : gy + ((0 : ℕ) : ℤ) = gy := by
        push_cast
        ring
      rw [hyz]
      have hbase : getCell (drawRow g row0 x gy c) gy.toNat (x + (k : ℤ)).toNat = some c :=
        drawRow_complete g row0 x gy c k hwf hk hx0 hx32 (by omega) (by omega)
      exact soundStep_preserve
        (drawPattern_sound (drawRow g row0 x gy c) rest x (gy + 1) c)
        gy.toNat (x + (k : ℤ)).toNat hbase
    | succ r2 =>
      rw [List.getElem?_cons_succ] at hr
      have heq : gy + ((r2 + 1 : ℕ) : ℤ) = (gy + 1) + (r2 : ℤ) := by
        push_cast
        ring
      rw [heq]
      exact ih (drawRow g row0 x gy c) (gy + 1) r2
        (drawRow_WF g row0 x gy c hwf) hr (by omega) (by omega)

/-- Claim C7: for every text, start position (including negative or
beyond-edge coordinates) and grid, draw_text never writes a cell outside
[0,32)x[0,32) — any changed cell is in bounds and holds the written color;
each set font bit whose target cell is in bounds is written at
(start_x + col, start_y + row), out-of-bounds bits being silently clipped;
after a character present in the font the cursor advances by the glyph's
width plus one, and an absent character is skipped consuming no space. -/
theorem claim7_draw_text :
    (∀ (g : Grid) (text : PyStr) (sx sy : ℤ) (c : ℕ) (y x : ℕ),
        getCell (draw_text g text sx sy c) y x ≠ getCell g y x →
        y < 32 ∧ x < 32 ∧ getCell (draw_text g text sx sy c) y x = some c) ∧
    (∀ (g : Grid) (ch : Char) (rest : PyStr) (sx sy : ℤ) (c : ℕ),
        FONT_3X5 ch = none →
        draw_text g (ch :: rest) sx sy c = draw_text g rest sx sy c) ∧
    (∀ (g : Grid) (ch : Char) (pattern : List PyStr) (rest : PyStr)
        (sx sy : ℤ) (c : ℕ),
        FONT_3X5 ch = some pattern →
        draw_text g (ch :: rest) sx sy c =
          draw_text (drawPattern g pattern sx sy c) rest
            (sx + ((pattern.headD []).length : ℤ) + 1) sy c) ∧
    (∀ (g : Grid) (ch : Char) (pattern : List PyStr) (rest : PyStr)
        (sx sy : ℤ) (c : ℕ) (r k : ℕ) (rowStr : PyStr), GridWF g →
        FONT_3X5 ch = some pattern → pattern[r]? = some rowStr →
        rowStr[k]? = some '1' →
        0 ≤ sx + (k : ℤ) → sx + (k : ℤ) < 32 →
        0 ≤ sy + (r : ℤ) → sy + (r : ℤ) < 32 →
        getCell (draw_text g (ch :: rest) sx sy c) (sy + (r : ℤ)).toNat
          (sx + (k : ℤ)).toNat = some c) := by
  refine ⟨?_, ?_, ?_, ?_⟩
  · intro g text sx sy c y x hne
    exact draw_text_sound g text sx sy c y x hne
  · intro g ch rest sx sy c hf
    rw [draw_text, hf]
  · intro g ch pattern rest sx sy c hf
    rw [draw_text, hf]
  · intro g ch pattern rest sx sy c r k rowStr hwf hf hr hk hx0 hx32 hy0 hy32
    rw [draw_text, hf]
    exact soundStep_preserve
      (draw_text_sound (drawPattern g pattern sx sy c) rest
        (sx + ((pattern.headD []).length : ℤ) + 1) sy c)
      (sy + (r : ℤ)).toNat (sx + (k : ℤ)).toNat
      (drawPattern_complete g pattern sx sy c r k rowStr hwf hr hk hx0 hx32 hy0 hy32)
